import Mathlib

/-!
Shallow embedding of the Sia renter download module (`modules/renter/download.go`).

The Go code is effectful: it talks to the network, writes to a destination
file, sleeps, and draws randomness.  We embed it by making every external
effect an explicit parameter:

* the outcome of each network fetch attempt is an oracle
  `out : Nat → Nat → FetchOutcome` (pass index, piece index);
* the destination file handle is modelled by a write position `filePos`
  and a `fileClosed` flag inside the `Download` record;
* the filesystem is a list of existing paths (`os.Create` prepends,
  `os.Remove` filters out);
* `rand.Read` of one byte is an oracle `rand : Nat → Nat` (per pass);
* `time.Now` is a parameter `now`.

The retry loop emits a trace of `Event`s (piece attempts and backoff
sleeps) so that temporal claims about the run can be stated and decided.
-/

/-- `modules.ContractTerms`-level data the download code reads: the declared
file size and the expected Merkle root of the stored file. -/
structure Contract where
  fileSize : Nat
  fileMerkleRoot : Nat
  deriving Repr, DecidableEq, Inhabited

/-- A `filePiece`: one redundant stored copy of the file.  `hostIP`,
`contractID` and `encryptionKey` are carried but never inspected by the
download logic beyond being sent on the wire. -/
structure filePiece where
  hostIP : String
  contractID : Nat
  contract : Contract
  encryptionKey : Nat
  active : Bool
  deriving Repr, DecidableEq, Inhabited

/-- The renter's `file` record: a nickname and the full piece list. -/
structure file where
  name : String
  pieces : List filePiece
  deriving Repr, DecidableEq, Inhabited

/-- A `Download` session.  `filePos` and `fileClosed` model the state of the
destination `*os.File` handle; `received` is the atomically updated byte
counter. -/
structure Download where
  received : Nat
  startTime : Nat
  complete : Bool
  filesize : Nat
  destination : String
  nickname : String
  pieces : List filePiece
  filePos : Nat
  fileClosed : Bool
  deriving Repr, DecidableEq, Inhabited

/-- `downloadAttempts = 5` in the source. -/
def downloadAttempts : Nat := 5

/-- `Download.Write`: the buffer `b` is handed to the underlying
`d.file.Write`, whose result `(n, werr)` we take as a parameter (the OS may
write fewer than `b.length` bytes and may report an error); then exactly `n`
is added to `received` and the underlying result is returned unchanged. -/
def Download.Write (d : Download) (b : List Nat) (n : Nat) (werr : Option String) :
    Download × Nat × Option String :=
  let _ := b
  let d1 := { d with filePos := d.filePos + n, received := d.received + n }
  (d1, n, werr)

/-- The outcome of one `downloadPiece` network exchange, as far as the
download code can observe it.  `chunks` are the sizes of the successive
decrypted chunks that the tee reader pushes through `Download.Write`
before the attempt ends; `computedRoot` is the Merkle root
`crypto.ReaderMerkleRoot` computed over the decrypted stream. -/
inductive FetchOutcome where
  | dialErr
  | writeTagErr
  | writeIDErr
  | readErr (chunks : List Nat)
  | streamOk (chunks : List Nat) (computedRoot : Nat)
  deriving Repr, DecidableEq, Inhabited

/-- The decrypted chunk sizes an outcome delivers to the sink. -/
def FetchOutcome.chunks : FetchOutcome → List Nat
  | .readErr cs => cs
  | .streamOk cs _ => cs
  | _ => []

/-- Push a sequence of decrypted chunks through `Download.Write`
(each underlying file write succeeding in full). -/
def writeChunks (d : Download) (cs : List Nat) : Download :=
  cs.foldl (fun t c => (t.Write (List.replicate c 0) c none).1) d

/-- `downloadPiece`: dial, send the retrieve tag and contract ID, tee the
bounded read through decrypt + Merkle hashing + the sink, then compare the
computed root with the contract's recorded root. -/
def downloadPiece (d : Download) (piece : filePiece) (out : FetchOutcome) :
    Download × Option String :=
  match out with
  | .dialErr => (d, some "dial timeout")
  | .writeTagErr => (d, some "write tag failed")
  | .writeIDErr => (d, some "write contract id failed")
  | .readErr cs => (writeChunks d cs, some "read failed")
  | .streamOk cs root =>
      let d1 := writeChunks d cs
      if root ≠ piece.contract.fileMerkleRoot then
        (d1, some "host provided a file that is invalid")
      else
        (d1, none)

/-- Whether an outcome makes `downloadPiece` fail on `piece`. -/
def outcomeFails (o : FetchOutcome) (piece : filePiece) : Bool :=
  match o with
  | .streamOk _ root => root ≠ piece.contract.fileMerkleRoot
  | _ => true

/-- One entry of the run trace.  An `attempt` records the pass and piece
indices, the counter / write-position before the attempt, the successive
values of `received` observed while the attempt's chunks were written
(`obs`), whether it failed, and the counter / write-position after the
post-attempt processing (reset on failure). -/
inductive Event where
  | attempt (passIdx pieceIdx recBefore posBefore : Nat) (obs : List Nat)
      (failed : Bool) (recAfter posAfter : Nat)
  | sleep (passIdx randByte durationNs : Nat)
  deriving Repr, DecidableEq, Inhabited

/-- `received` values observed after each chunk write, starting from `rec`. -/
def chunkObs (rec : Nat) : List Nat → List Nat
  | [] => []
  | c :: cs => (rec + c) :: chunkObs (rec + c) cs

/-- The inner loop of `Renter.Download`: one pass over the remaining pieces,
starting at piece index `j`.  Returns the session state, whether a piece
succeeded, and the events of this part of the pass. -/
def runPieces (out : Nat → FetchOutcome) (i : Nat) :
    Download → Nat → List filePiece → Download × Bool × List Event
  | d, _, [] => (d, false, [])
  | d, j, piece :: rest =>
      let res := downloadPiece d piece (out j)
      let obs := chunkObs d.received (out j).chunks
      match res.2 with
      | none =>
          -- d.complete = true; d.file.Close(); return nil
          let d2 := { res.1 with complete := true, fileClosed := true }
          (d2, true,
            [.attempt i j d.received d.filePos obs false d2.received d2.filePos])
      | some _ =>
          -- d.file.Seek(0, 0); atomic.SwapUint64(&d.received, 0)
          let d2 := { res.1 with filePos := 0, received := 0 }
          let t := runPieces out i d2 (j + 1) rest
          (t.1, t.2.1,
            .attempt i j d.received d.filePos obs true d2.received d2.filePos :: t.2.2)

/-- The outer retry loop of `Renter.Download`: `rem` passes remaining,
current pass index `i`.  After a fully failed pass the code draws one
random byte `rand i` and sleeps `time.Second * (i*i) * randByte`
nanoseconds — the sleep statement sits at the end of the loop body, so it
also runs after the final pass. -/
def runPasses (out : Nat → Nat → FetchOutcome) (rand : Nat → Nat) :
    Download → Nat → Nat → Download × Bool × List Event
  | d, _, 0 => (d, false, [])
  | d, i, rem + 1 =>
      let t := runPieces (out i) i d 0 d.pieces
      if t.2.1 then
        (t.1, true, t.2.2)
      else
        let r := rand i
        let slp := Event.sleep i r (1000000000 * (i * i) * r)
        let t2 := runPasses out rand t.1 (i + 1) rem
        (t2.1, t2.2.1, t.2.2 ++ slp :: t2.2.2)

/-- Result of `newDownload`.  `outOfBounds` marks the (unreachable) case in
which the source expression `file.Pieces[0]` would index an empty slice. -/
inductive NewDownloadResult where
  | ok (fs : List String) (d : Download)
  | err (fs : List String) (msg : String)
  | outOfBounds
  deriving Repr, DecidableEq, Inhabited

/-- `newDownload`: create the destination file (`createOk` is whether
`os.Create` succeeds; on success the path is added to the filesystem),
filter the inactive pieces, fail if none remain, then build the session
with `filesize` read from `file.Pieces[0]`. -/
def newDownload (fs : List String) (f : file) (destination : String)
    (createOk : Bool) (now : Nat) : NewDownloadResult :=
  if ¬createOk then
    .err fs "create failed"
  else
    let fs1 := destination :: fs
    let activePieces := f.pieces.filter (fun p => p.active)
    if activePieces.length = 0 then
      .err fs1 "no active pieces"
    else
      match f.pieces.head? with
      | none => .outOfBounds
      | some p0 =>
          .ok fs1
            { received := 0
              startTime := now
              complete := false
              filesize := p0.contract.fileSize
              destination := destination
              nickname := f.name
              pieces := activePieces
              filePos := 0
              fileClosed := false }

/-- The renter state the download code touches: the file catalog and the
download queue. -/
structure Renter where
  files : List (String × file)
  downloadQueue : List Download
  deriving Repr, DecidableEq, Inhabited

/-- Everything `Renter.Download` produces: the updated renter, the
filesystem, the returned error, the run trace, and the final state of the
session object (which queue entries alias in Go; `none` when construction
failed before a session existed). -/
structure DownloadRun where
  renter : Renter
  fs : List String
  err : Option String
  events : List Event
  finalD : Option Download
  deriving Repr, DecidableEq, Inhabited

/-- `Renter.DownloadQueue`: `downloads[i] = r.downloadQueue[len-i-1]`. -/
def Renter.DownloadQueue (r : Renter) : List Download :=
  (List.range r.downloadQueue.length).map
    (fun i => r.downloadQueue.getD (r.downloadQueue.length - i - 1) default)

/-- `Renter.Download`: look up the nickname, construct the session, enqueue
it, run up to `downloadAttempts` passes; on success close and return nil,
on exhaustion close, delete the destination file and return an error. -/
def Renter.Download (r : Renter) (fs : List String) (nickname destination : String)
    (createOk : Bool) (now : Nat) (out : Nat → Nat → FetchOutcome)
    (rand : Nat → Nat) : DownloadRun :=
  match r.files.lookup nickname with
  | none => ⟨r, fs, some "no file of that nickname", [], none⟩
  | some f =>
      match newDownload fs f destination createOk now with
      | .err fs1 msg => ⟨r, fs1, some msg, [], none⟩
      | .outOfBounds => ⟨r, fs, some "index out of range", [], none⟩
      | .ok fs1 d =>
          let r1 : Renter := { r with downloadQueue := r.downloadQueue ++ [d] }
          let t := runPasses out rand d 0 downloadAttempts
          if t.2.1 then
            ⟨r1, fs1, none, t.2.2, some t.1⟩
          else
            -- d.file.Close(); os.Remove(destination)
            let d2 := { t.1 with fileClosed := true }
            let fs2 := fs1.filter (fun p => p ≠ destination)
            ⟨r1, fs2, some "could not download any file pieces", t.2.2, some d2⟩

/-! ### Trace helpers -/

/-- The pass index an event belongs to. -/
def Event.passOf : Event → Nat
  | .attempt i _ _ _ _ _ _ _ => i
  | .sleep i _ _ => i

/-- The pass index of an attempt event (`none` for sleeps). -/
def Event.attemptPass? : Event → Option Nat
  | .attempt i _ _ _ _ _ _ _ => some i
  | .sleep _ _ _ => none

/-- Is this a successful piece attempt? -/
def Event.isSuccessAttempt : Event → Bool
  | .attempt _ _ _ _ _ failed _ _ => !failed
  | .sleep _ _ _ => false

/-- Is this a failed piece attempt? -/
def Event.isFailedAttempt : Event → Bool
  | .attempt _ _ _ _ _ failed _ _ => failed
  | .sleep _ _ _ => false

/-- Is this a backoff sleep? -/
def Event.isSleepEv : Event → Bool
  | .attempt _ _ _ _ _ _ _ _ => false
  | .sleep _ _ _ => true

/-- The attempt started from a zeroed counter and write position, and if it
failed, both were zero again after the post-failure reset. -/
def Event.resetOk : Event → Bool
  | .attempt _ _ rb pb _ failed ra pa =>
      rb == 0 && pb == 0 && (!failed || (ra == 0 && pa == 0))
  | .sleep _ _ _ => true

/-- The values of `received` an observer could read during this event
(chunk-by-chunk observations, then the post-failure reset to `0`). -/
def Event.obsOf : Event → List Nat
  | .attempt _ _ _ _ obs failed _ _ => obs ++ (if failed then [0] else [])
  | .sleep _ _ _ => []

/-- All observations of a trace. -/
def obsFlat (evs : List Event) : List Nat := evs.flatMap Event.obsOf

/-- The full sequence of `received` values observable over a run: the
initial `0`, then the per-event observations. -/
def recTrace (evs : List Event) : List Nat := 0 :: obsFlat evs

/-- Number of attempt events belonging to pass `i`. -/
def attemptsInPass (evs : List Event) (i : Nat) : Nat :=
  (evs.filter (fun e => e.attemptPass? == some i)).length

/-! ### Concrete scenarios used by counterexamples and witnesses -/

/-- An active piece whose contract declares size 10 and Merkle root 0. -/
def pieceA : filePiece :=
  { hostIP := "10.0.0.1", contractID := 1,
    contract := { fileSize := 10, fileMerkleRoot := 0 },
    encryptionKey := 0, active := true }

/-- A one-piece file named "report". -/
def fileA : file := { name := "report", pieces := [pieceA] }

/-- A renter knowing only `fileA`. -/
def renterA : Renter := { files := [("report", fileA)], downloadQueue := [] }

/-- A host that always streams 5 decrypted bytes hashing to the wrong root. -/
def badHostOut : Nat → Nat → FetchOutcome := fun _ _ => .streamOk [5] 1

/-- The run of `Renter.Download` on `renterA` against `badHostOut`. -/
def runBad : DownloadRun :=
  Renter.Download renterA [] "report" "dest" true 0 badHostOut (fun _ => 7)

/-- A file whose only piece is inactive. -/
def fileInactive : file :=
  { name := "ghost",
    pieces := [{ pieceA with active := false }] }

/-- A renter knowing only `fileInactive`. -/
def renterInactive : Renter :=
  { files := [("ghost", fileInactive)], downloadQueue := [] }

/-- The run of `Renter.Download` on the all-inactive file. -/
def runInactive : DownloadRun :=
  Renter.Download renterInactive [] "ghost" "dest" true 0 (fun _ _ => .dialErr) (fun _ => 0)

/-- A host that streams 10 correct bytes with the expected root on the very
first attempt. -/
def goodHostOut : Nat → Nat → FetchOutcome := fun _ _ => .streamOk [10] 0

/-- The run of `Renter.Download` on `renterA` against `goodHostOut`. -/
def runGood : DownloadRun :=
  Renter.Download renterA [] "report" "dest" true 0 goodHostOut (fun _ => 7)

/-! ### Basic lemmas -/

/-- Pushing chunks through the sink adds their total size to both the
counter and the write position and touches nothing else. -/
theorem writeChunks_eq (d : Download) (cs : List Nat) :
    writeChunks d cs =
      { d with received := d.received + cs.sum, filePos := d.filePos + cs.sum } := by
  induction cs generalizing d with
  | nil => simp [writeChunks]
  | cons c cs ih =>
      show writeChunks ((d.Write (List.replicate c 0) c none).1) cs = _
      rw [ih]
      simp [Download.Write, List.sum_cons]
      constructor <;> omega

/-- `downloadPiece` fails exactly when `outcomeFails` says so. -/
theorem downloadPiece_err_isSome (d : Download) (piece : filePiece) (o : FetchOutcome) :
    ((downloadPiece d piece o).2).isSome = outcomeFails o piece := by
  cases o with
  | dialErr => rfl
  | writeTagErr => rfl
  | writeIDErr => rfl
  | readErr cs => rfl
  | streamOk cs root =>
      by_cases h : root = piece.contract.fileMerkleRoot
      · simp [downloadPiece, outcomeFails, h]
      · simp [downloadPiece, outcomeFails, h]

/-- `downloadPiece` never touches the completion flag, the handle state,
the piece list or the declared size. -/
theorem downloadPiece_preserves (d : Download) (piece : filePiece) (o : FetchOutcome) :
    (downloadPiece d piece o).1.complete = d.complete ∧
    (downloadPiece d piece o).1.fileClosed = d.fileClosed ∧
    (downloadPiece d piece o).1.pieces = d.pieces ∧
    (downloadPiece d piece o).1.filesize = d.filesize := by
  cases o with
  | dialErr => exact ⟨rfl, rfl, rfl, rfl⟩
  | writeTagErr => exact ⟨rfl, rfl, rfl, rfl⟩
  | writeIDErr => exact ⟨rfl, rfl, rfl, rfl⟩
  | readErr cs => simp [downloadPiece, writeChunks_eq]
  | streamOk cs root =>
      by_cases h : root = piece.contract.fileMerkleRoot <;>
        simp [downloadPiece, writeChunks_eq, h]

/-! ### Claim C1: integrity check on the downloaded stream -/

/-- Claim C1: for every piece-retrieval attempt, if the Merkle root computed
over the decrypted stream differs from the contract's recorded root,
`downloadPiece` returns a non-nil integrity error and leaves the session's
completion flag untouched, regardless of how many bytes were delivered. -/
theorem downloadPiece_integrity (d : Download) (piece : filePiece)
    (cs : List Nat) (root : Nat) (h : root ≠ piece.contract.fileMerkleRoot) :
    (downloadPiece d piece (.streamOk cs root)).2 =
      some "host provided a file that is invalid" ∧
    (downloadPiece d piece (.streamOk cs root)).1.complete = d.complete := by
  constructor
  · simp [downloadPiece, h]
  · simp [downloadPiece, h, writeChunks_eq]

/-- Witness for C1: a concrete mismatching root (1 against recorded 0),
with a byte count (5) different from the declared size (10). -/
theorem downloadPiece_integrity_witness :
    (1 ≠ pieceA.contract.fileMerkleRoot) ∧
    ((downloadPiece default pieceA (.streamOk [5] 1)).2 =
        some "host provided a file that is invalid" ∧
      (downloadPiece default pieceA (.streamOk [5] 1)).1.complete =
        (default : Download).complete) :=
  ⟨by decide, downloadPiece_integrity default pieceA [5] 1 (by decide)⟩

/-! ### Claim C6: the byte-accounting writer -/

/-- Claim C6: `Download.Write` hands the buffer to the underlying file
write and, whatever byte count `n` and error the underlying write reports,
adds exactly `n` to the cumulative counter (and advances the file by `n`)
before returning; the underlying byte count and error are returned
unchanged. -/
theorem Download_Write_accounting (d : Download) (b : List Nat) (n : Nat)
    (werr : Option String) :
    (d.Write b n werr).2.1 = n ∧
    (d.Write b n werr).2.2 = werr ∧
    (d.Write b n werr).1.received = d.received + n ∧
    (d.Write b n werr).1.filePos = d.filePos + n ∧
    (d.Write b n werr).1.complete = d.complete := by
  exact ⟨rfl, rfl, rfl, rfl, rfl⟩

/-! ### Claim C10: no out-of-bounds read of the piece list -/

/-- Claim C10: `newDownload` never reaches the out-of-bounds read of
`file.Pieces[0]`: the zero-active-pieces check guarantees the full piece
list is non-empty before the element is read. -/
theorem newDownload_no_out_of_bounds (fs : List String) (f : file)
    (destination : String) (createOk : Bool) (now : Nat) :
    newDownload fs f destination createOk now ≠ NewDownloadResult.outOfBounds := by
  unfold newDownload
  by_cases hc : createOk
  · simp only [hc, not_true, if_false]
    by_cases ha : (f.pieces.filter (fun p => p.active)).length = 0
    · simp [ha]
    · simp only [ha, if_false]
      cases hp : f.pieces.head? with
      | none =>
          rw [List.head?_eq_none_iff] at hp
          rw [hp] at ha
          simp at ha
      | some p0 => simp
  · simp [hc]

/-! ### Claim C2: the observed counter is not monotone (counterexample) -/

/-- Counterexample to C2 as stated: in the concrete run `runBad` (one
active piece, every attempt delivers 5 bytes hashing to the wrong root),
the sequence of observable `received` values is `[0,5,0,5,0,5,0,5,0,5,0]`
— the reset after each failed attempt makes repeated reads of the counter
decrease from 5 to 0, so the observed sequence is not non-decreasing. -/
theorem received_not_monotone_cex :
    recTrace runBad.events = [0, 5, 0, 5, 0, 5, 0, 5, 0, 5, 0] ∧
    ¬ List.Chain' (fun a b : Nat => a ≤ b) (recTrace runBad.events) := by
  constructor
  · rfl
  · intro hch
    rw [show recTrace runBad.events = [0, 5, 0, 5, 0, 5, 0, 5, 0, 5, 0] from rfl] at hch
    simp [List.chain'_cons] at hch

/-! ### Claim C7: a sleep also follows the final pass (counterexample) -/

/-- Counterexample to C7 as stated: in the concrete run `runBad` all five
passes fail, and the last event of the run is the backoff sleep of pass
index 4 (duration `10^9 * 4^2 * 7` ns with random byte 7) — a sleep that is
not followed by the start of any next pass, because the loop body sleeps
even after the final pass, just before the terminal error is returned. -/
theorem final_pass_sleep_cex :
    runBad.events.getLast? = some (Event.sleep 4 7 112000000000) ∧
    runBad.err = some "could not download any file pieces" := by
  constructor
  · rfl
  · rfl

/-! ### Claim C8: the zero-active-pieces failure leaves the file (counterexample) -/

/-- Counterexample to C8 as stated: in the concrete run `runInactive`
(file "ghost" whose only piece is inactive), construction fails with the
"no active pieces" error after `os.Create` has already created the
destination file, and nothing removes it: the destination path is still
present in the filesystem when the error is returned. -/
theorem construction_leftover_file_cex :
    runInactive.err = some "no active pieces" ∧
    "dest" ∈ runInactive.fs := by
  constructor
  · rfl
  · decide

/-! ### Structure of a single pass -/

/-- A fully failed pass segment: every event is a failed attempt, the
session's completion flag, handle state, piece list and declared size are
untouched, and (unless there were no pieces) the counter and write position
end reset to zero. -/
theorem runPieces_false (out : Nat → FetchOutcome) (i : Nat) (d : Download) (j : Nat)
    (ps : List filePiece) (h : (runPieces out i d j ps).2.1 = false) :
    (∀ e ∈ (runPieces out i d j ps).2.2, e.isFailedAttempt = true) ∧
    (runPieces out i d j ps).1.complete = d.complete ∧
    (runPieces out i d j ps).1.fileClosed = d.fileClosed ∧
    (runPieces out i d j ps).1.pieces = d.pieces ∧
    (runPieces out i d j ps).1.filesize = d.filesize ∧
    (ps = [] → (runPieces out i d j ps).1 = d) ∧
    (ps ≠ [] → (runPieces out i d j ps).1.received = 0 ∧
      (runPieces out i d j ps).1.filePos = 0) := by
  induction ps generalizing d j with
  | nil => simp [runPieces]
  | cons piece rest ih =>
      cases hdp : (downloadPiece d piece (out j)).2 with
      | none =>
          simp only [runPieces, hdp] at h
          exact absurd h (by simp)
      | some msg =>
          have hpres := downloadPiece_preserves d piece (out j)
          simp only [runPieces, hdp] at h ⊢
          have ihh := ih _ (j + 1) h
          refine ⟨?_, ?_, ?_, ?_, ?_, ?_, ?_⟩
          · intro e he
            rcases List.mem_cons.mp he with rfl | he2
            · rfl
            · exact ihh.1 e he2
          · rw [ihh.2.1]; exact hpres.1
          · rw [ihh.2.2.1]; exact hpres.2.1
          · rw [ihh.2.2.2.1]; exact hpres.2.2.1
          · rw [ihh.2.2.2.2.1]; exact hpres.2.2.2
          · intro hcontra; exact absurd hcontra (by simp)
          · intro _
            cases rest with
            | nil =>
                rw [ihh.2.2.2.2.2.1 rfl]
                exact ⟨rfl, rfl⟩
            | cons q qs =>
                exact ihh.2.2.2.2.2.2 (by simp)

/-- A successful pass segment: the trace is some failed attempts followed
by one successful attempt, and the session ends complete with the handle
closed; piece list and declared size are untouched. -/
theorem runPieces_true (out : Nat → FetchOutcome) (i : Nat) (d : Download) (j : Nat)
    (ps : List filePiece) (h : (runPieces out i d j ps).2.1 = true) :
    (∃ pre e, (runPieces out i d j ps).2.2 = pre ++ [e] ∧
      e.isSuccessAttempt = true ∧ (∀ x ∈ pre, x.isFailedAttempt = true)) ∧
    (runPieces out i d j ps).1.complete = true ∧
    (runPieces out i d j ps).1.fileClosed = true ∧
    (runPieces out i d j ps).1.pieces = d.pieces ∧
    (runPieces out i d j ps).1.filesize = d.filesize := by
  induction ps generalizing d j with
  | nil => exact absurd h (by simp [runPieces])
  | cons piece rest ih =>
      have hpres := downloadPiece_preserves d piece (out j)
      cases hdp : (downloadPiece d piece (out j)).2 with
      | none =>
          simp only [runPieces, hdp] at h ⊢
          refine ⟨⟨[], Event.attempt i j d.received d.filePos
              (chunkObs d.received (out j).chunks) false
              (downloadPiece d piece (out j)).1.received
              (downloadPiece d piece (out j)).1.filePos, by simp, rfl, by simp⟩,
            ?_, ?_, hpres.2.2.1, hpres.2.2.2⟩
          · simp
          · simp
      | some msg =>
          simp only [runPieces, hdp] at h ⊢
          have ihh := ih _ (j + 1) h
          obtain ⟨pre, e, hevs, hse, hpre⟩ := ihh.1
          refine ⟨⟨.attempt i j d.received d.filePos
              (chunkObs d.received (out j).chunks) true 0 0 :: pre, e, ?_, hse, ?_⟩,
            ihh.2.1, ihh.2.2.1, ?_, ?_⟩
          · rw [hevs]; rfl
          · intro x hx
            rcases List.mem_cons.mp hx with rfl | hx2
            · rfl
            · exact hpre x hx2
          · rw [ihh.2.2.2.1]; exact hpres.2.2.1
          · rw [ihh.2.2.2.2]; exact hpres.2.2.2

/-- Every event a pass segment emits is an attempt of that pass. -/
theorem runPieces_attemptPass (out : Nat → FetchOutcome) (i : Nat) (d : Download)
    (j : Nat) (ps : List filePiece) :
    ∀ e ∈ (runPieces out i d j ps).2.2, e.attemptPass? = some i := by
  induction ps generalizing d j with
  | nil => simp [runPieces]
  | cons piece rest ih =>
      cases hdp : (downloadPiece d piece (out j)).2 with
      | none =>
          simp only [runPieces, hdp]
          intro e he
          rcases List.mem_singleton.mp he with rfl
          rfl
      | some msg =>
          simp only [runPieces, hdp]
          intro e he
          rcases List.mem_cons.mp he with rfl | he2
          · rfl
          · exact ih _ (j + 1) e he2

/-- If every outcome fails on the piece it is applied to, the pass fails. -/
theorem runPieces_all_fail (out : Nat → FetchOutcome) (i : Nat) (d : Download) (j : Nat)
    (ps : List filePiece)
    (h : ∀ k, (hk : k < ps.length) → outcomeFails (out (j + k)) (ps.get ⟨k, hk⟩) = true) :
    (runPieces out i d j ps).2.1 = false := by
  induction ps generalizing d j with
  | nil => simp [runPieces]
  | cons piece rest ih =>
      cases hdp : (downloadPiece d piece (out j)).2 with
      | none =>
          exfalso
          have h0 : outcomeFails (out (j + 0)) piece = true := h 0 (by simp)
          rw [Nat.add_zero] at h0
          have hiff := downloadPiece_err_isSome d piece (out j)
          rw [hdp, h0] at hiff
          exact Bool.noConfusion hiff
      | some msg =>
          simp only [runPieces, hdp]
          apply ih
          intro k hk
          have h1 : outcomeFails (out (j + (k + 1))) (rest.get ⟨k, hk⟩) = true :=
            h (k + 1) (by simpa using Nat.succ_lt_succ hk)
          have h2 : j + (k + 1) = j + 1 + k := by omega
          rwa [h2] at h1

/-- A failed pass emits exactly one attempt per piece. -/
theorem runPieces_count (out : Nat → FetchOutcome) (i : Nat) (d : Download) (j : Nat)
    (ps : List filePiece) (h : (runPieces out i d j ps).2.1 = false) :
    (runPieces out i d j ps).2.2.length = ps.length := by
  induction ps generalizing d j with
  | nil => simp [runPieces]
  | cons piece rest ih =>
      cases hdp : (downloadPiece d piece (out j)).2 with
      | none =>
          simp only [runPieces, hdp] at h
          exact absurd h (by simp)
      | some msg =>
          simp only [runPieces, hdp] at h ⊢
          simp [ih _ (j + 1) h]

/-- Starting from a zeroed counter and write position, every attempt of a
pass starts from zero and every failed attempt ends reset to zero. -/
theorem runPieces_resetOk (out : Nat → FetchOutcome) (i : Nat) (d : Download) (j : Nat)
    (ps : List filePiece) (hrec : d.received = 0) (hpos : d.filePos = 0) :
    ∀ e ∈ (runPieces out i d j ps).2.2, e.resetOk = true := by
  induction ps generalizing d j with
  | nil => simp [runPieces]
  | cons piece rest ih =>
      cases hdp : (downloadPiece d piece (out j)).2 with
      | none =>
          simp only [runPieces, hdp]
          intro e he
          rcases List.mem_singleton.mp he with rfl
          simp [Event.resetOk, hrec, hpos]
      | some msg =>
          simp only [runPieces, hdp]
          intro e he
          rcases List.mem_cons.mp he with rfl | he2
          · simp [Event.resetOk, hrec, hpos]
          · exact ih _ (j + 1) rfl rfl e he2

/-! ### Structure of the outer retry loop -/

/-- Unfolding `runPasses` when the pass succeeds. -/
theorem runPasses_succ_true (out : Nat → Nat → FetchOutcome) (rand : Nat → Nat)
    (d : Download) (i rem : Nat)
    (hfl : (runPieces (out i) i d 0 d.pieces).2.1 = true) :
    runPasses out rand d i (rem + 1) =
      ((runPieces (out i) i d 0 d.pieces).1, true,
        (runPieces (out i) i d 0 d.pieces).2.2) := by
  simp only [runPasses, hfl]
  simp

/-- Unfolding `runPasses` when the pass fails: the pass's failed attempts,
then the backoff sleep, then the remaining passes. -/
theorem runPasses_succ_false (out : Nat → Nat → FetchOutcome) (rand : Nat → Nat)
    (d : Download) (i rem : Nat)
    (hfl : (runPieces (out i) i d 0 d.pieces).2.1 = false) :
    runPasses out rand d i (rem + 1) =
      ((runPasses out rand (runPieces (out i) i d 0 d.pieces).1 (i + 1) rem).1,
        (runPasses out rand (runPieces (out i) i d 0 d.pieces).1 (i + 1) rem).2.1,
        (runPieces (out i) i d 0 d.pieces).2.2 ++
          Event.sleep i (rand i) (1000000000 * (i * i) * rand i) ::
            (runPasses out rand (runPieces (out i) i d 0 d.pieces).1 (i + 1) rem).2.2) := by
  simp only [runPasses, hfl]
  simp

/-- An exhausted run: every event is a failed attempt or a sleep, and the
completion flag, handle state, piece list and declared size are untouched. -/
theorem runPasses_false (out : Nat → Nat → FetchOutcome) (rand : Nat → Nat)
    (d : Download) (i rem : Nat) (h : (runPasses out rand d i rem).2.1 = false) :
    (∀ e ∈ (runPasses out rand d i rem).2.2,
        e.isFailedAttempt = true ∨ e.isSleepEv = true) ∧
    (runPasses out rand d i rem).1.complete = d.complete ∧
    (runPasses out rand d i rem).1.fileClosed = d.fileClosed ∧
    (runPasses out rand d i rem).1.pieces = d.pieces ∧
    (runPasses out rand d i rem).1.filesize = d.filesize := by
  induction rem generalizing d i with
  | zero => simp [runPasses]
  | succ rem ih =>
      cases hfl : (runPieces (out i) i d 0 d.pieces).2.1 with
      | true =>
          rw [runPasses_succ_true out rand d i rem hfl] at h
          exact absurd h (by simp)
      | false =>
          have hp := runPieces_false (out i) i d 0 d.pieces hfl
          rw [runPasses_succ_false out rand d i rem hfl] at h ⊢
          have ihh := ih _ (i + 1) h
          refine ⟨?_, ?_, ?_, ?_, ?_⟩
          · intro e he
            rcases List.mem_append.mp he with he1 | he2
            · exact Or.inl (hp.1 e he1)
            · rcases List.mem_cons.mp he2 with rfl | he3
              · exact Or.inr rfl
              · exact ihh.1 e he3
          · rw [ihh.2.1]; exact hp.2.1
          · rw [ihh.2.2.1]; exact hp.2.2.1
          · rw [ihh.2.2.2.1]; exact hp.2.2.2.1
          · rw [ihh.2.2.2.2]; exact hp.2.2.2.2.1

/-- A successful run: the trace is a prefix of non-successful events
followed by exactly one successful attempt, and the session ends complete
with the handle closed. -/
theorem runPasses_true (out : Nat → Nat → FetchOutcome) (rand : Nat → Nat)
    (d : Download) (i rem : Nat) (h : (runPasses out rand d i rem).2.1 = true) :
    (∃ pre e, (runPasses out rand d i rem).2.2 = pre ++ [e] ∧
      e.isSuccessAttempt = true ∧ (∀ x ∈ pre, x.isSuccessAttempt = false)) ∧
    (runPasses out rand d i rem).1.complete = true ∧
    (runPasses out rand d i rem).1.fileClosed = true := by
  induction rem generalizing d i with
  | zero => exact absurd h (by simp [runPasses])
  | succ rem ih =>
      cases hfl : (runPieces (out i) i d 0 d.pieces).2.1 with
      | true =>
          have hp := runPieces_true (out i) i d 0 d.pieces hfl
          rw [runPasses_succ_true out rand d i rem hfl]
          obtain ⟨pre, e, hevs, hse, hpre⟩ := hp.1
          refine ⟨⟨pre, e, hevs, hse, ?_⟩, hp.2.1, hp.2.2.1⟩
          intro x hx
          have := hpre x hx
          cases x with
          | attempt a b c dd ee ff gg hh =>
              simp [Event.isFailedAttempt] at this
              simp [Event.isSuccessAttempt, this]
          | sleep a b c => rfl
      | false =>
          have hp := runPieces_false (out i) i d 0 d.pieces hfl
          rw [runPasses_succ_false out rand d i rem hfl] at h ⊢
          have ihh := ih _ (i + 1) h
          obtain ⟨pre, e, hevs, hse, hpre⟩ := ihh.1
          refine ⟨⟨(runPieces (out i) i d 0 d.pieces).2.2 ++
              Event.sleep i (rand i) (1000000000 * (i * i) * rand i) :: pre, e, ?_, hse, ?_⟩,
            ihh.2.1, ihh.2.2⟩
          · rw [hevs]
            simp
          · intro x hx
            rcases List.mem_append.mp hx with hx1 | hx2
            · have := hp.1 x hx1
              cases x with
              | attempt a b c dd ee ff gg hh =>
                  simp [Event.isFailedAttempt] at this
                  simp [Event.isSuccessAttempt, this]
              | sleep a b c => rfl
            · rcases List.mem_cons.mp hx2 with rfl | hx3
              · rfl
              · exact hpre x hx3

/-- Pass indices recorded by the loop never fall below the starting pass. -/
theorem runPasses_pass_lb (out : Nat → Nat → FetchOutcome) (rand : Nat → Nat)
    (d : Download) (i rem : Nat) :
    ∀ e ∈ (runPasses out rand d i rem).2.2, i ≤ e.passOf := by
  induction rem generalizing d i with
  | zero => simp [runPasses]
  | succ rem ih =>
      cases hfl : (runPieces (out i) i d 0 d.pieces).2.1 with
      | true =>
          rw [runPasses_succ_true out rand d i rem hfl]
          intro e he
          have := runPieces_attemptPass (out i) i d 0 d.pieces e he
          cases e with
          | attempt a b c dd ee ff gg hh =>
              simp [Event.attemptPass?] at this
              simp [Event.passOf, this]
          | sleep a b c => simp [Event.attemptPass?] at this
      | false =>
          rw [runPasses_succ_false out rand d i rem hfl]
          intro e he
          rcases List.mem_append.mp he with he1 | he2
          · have := runPieces_attemptPass (out i) i d 0 d.pieces e he1
            cases e with
            | attempt a b c dd ee ff gg hh =>
                simp [Event.attemptPass?] at this
                simp [Event.passOf, this]
            | sleep a b c => simp [Event.attemptPass?] at this
          · rcases List.mem_cons.mp he2 with rfl | he3
            · simp [Event.passOf]
            · exact Nat.le_of_succ_le (ih _ (i + 1) e he3)

/-- If every outcome fails on the piece it is applied to, the whole run
fails. -/
theorem runPasses_all_fail (out : Nat → Nat → FetchOutcome) (rand : Nat → Nat)
    (d : Download) (i rem : Nat)
    (h : ∀ ii k, (hk : k < d.pieces.length) →
      outcomeFails (out ii k) (d.pieces.get ⟨k, hk⟩) = true) :
    (runPasses out rand d i rem).2.1 = false := by
  induction rem generalizing d i with
  | zero => simp [runPasses]
  | succ rem ih =>
      have hfl : (runPieces (out i) i d 0 d.pieces).2.1 = false := by
        apply runPieces_all_fail
        intro k hk
        have := h i k hk
        simpa using this
      have hp := runPieces_false (out i) i d 0 d.pieces hfl
      rw [runPasses_succ_false out rand d i rem hfl]
      have hpieces := hp.2.2.2.1
      apply ih
      rw [hpieces]
      exact h

/-- Starting from a zeroed counter and write position, every attempt of the
whole run starts from zero and every failed attempt ends reset to zero. -/
theorem runPasses_resetOk (out : Nat → Nat → FetchOutcome) (rand : Nat → Nat)
    (d : Download) (i rem : Nat) (hrec : d.received = 0) (hpos : d.filePos = 0) :
    ∀ e ∈ (runPasses out rand d i rem).2.2, e.resetOk = true := by
  induction rem generalizing d i with
  | zero => simp [runPasses]
  | succ rem ih =>
      cases hfl : (runPieces (out i) i d 0 d.pieces).2.1 with
      | true =>
          rw [runPasses_succ_true out rand d i rem hfl]
          exact runPieces_resetOk (out i) i d 0 d.pieces hrec hpos
      | false =>
          have hp := runPieces_false (out i) i d 0 d.pieces hfl
          rw [runPasses_succ_false out rand d i rem hfl]
          intro e he
          rcases List.mem_append.mp he with he1 | he2
          · exact runPieces_resetOk (out i) i d 0 d.pieces hrec hpos e he1
          · rcases List.mem_cons.mp he2 with rfl | he3
            · rfl
            · cases hps : d.pieces with
              | nil =>
                  have hd := hp.2.2.2.2.2.1 hps
                  exact ih _ (i + 1) (by rw [hd]; exact hrec) (by rw [hd]; exact hpos) e he3
              | cons q qs =>
                  have hz := hp.2.2.2.2.2.2 (by rw [hps]; simp)
                  exact ih _ (i + 1) hz.1 hz.2 e he3

/-- An event whose attempt pass is `x` belongs to pass `x`. -/
theorem Event.passOf_of_attemptPass {e : Event} {x : Nat}
    (h : e.attemptPass? = some x) : e.passOf = x := by
  cases e with
  | attempt a b c dd ee ff gg hh =>
      simp [Event.attemptPass?] at h
      simp [Event.passOf, h]
  | sleep a b c => simp [Event.attemptPass?] at h

theorem attemptsInPass_append (A B : List Event) (x : Nat) :
    attemptsInPass (A ++ B) x = attemptsInPass A x + attemptsInPass B x := by
  simp [attemptsInPass, List.filter_append]

theorem attemptsInPass_cons_sleep (ii rb dur x : Nat) (B : List Event) :
    attemptsInPass (Event.sleep ii rb dur :: B) x = attemptsInPass B x := by
  simp [attemptsInPass, List.filter_cons, Event.attemptPass?]

theorem attemptsInPass_all_eq (A : List Event) (x : Nat)
    (h : ∀ e ∈ A, e.attemptPass? = some x) : attemptsInPass A x = A.length := by
  unfold attemptsInPass
  rw [List.filter_eq_self.mpr]
  intro a ha
  simp [h a ha]

theorem attemptsInPass_zero (A : List Event) (x : Nat)
    (h : ∀ e ∈ A, e.attemptPass? ≠ some x) : attemptsInPass A x = 0 := by
  unfold attemptsInPass
  rw [List.length_eq_zero]
  rw [List.filter_eq_nil_iff]
  intro a ha
  simp [h a ha]

/-- Every sleep the loop emits carries the freshly drawn random byte and
the duration `second * i² * randByte` of its pass index, and its pass ran
to completion with one failed attempt per piece and no success. -/
theorem runPasses_sleep_spec (out : Nat → Nat → FetchOutcome) (rand : Nat → Nat)
    (d : Download) (i rem : Nat) :
    ∀ e ∈ (runPasses out rand d i rem).2.2, ∀ ii rb dur,
      e = Event.sleep ii rb dur →
      rb = rand ii ∧ dur = 1000000000 * (ii * ii) * rb ∧
      attemptsInPass (runPasses out rand d i rem).2.2 ii = d.pieces.length ∧
      (∀ a ∈ (runPasses out rand d i rem).2.2, a.attemptPass? = some ii →
        a.isFailedAttempt = true) := by
  induction rem generalizing d i with
  | zero => simp [runPasses]
  | succ rem ih =>
      cases hfl : (runPieces (out i) i d 0 d.pieces).2.1 with
      | true =>
          rw [runPasses_succ_true out rand d i rem hfl]
          intro e he ii rb dur heq
          exfalso
          have := runPieces_attemptPass (out i) i d 0 d.pieces e he
          rw [heq] at this
          simp [Event.attemptPass?] at this
      | false =>
          have hp := runPieces_false (out i) i d 0 d.pieces hfl
          have hcount := runPieces_count (out i) i d 0 d.pieces hfl
          have hpassA := runPieces_attemptPass (out i) i d 0 d.pieces
          have hlb := runPasses_pass_lb out rand (runPieces (out i) i d 0 d.pieces).1 (i + 1) rem
          rw [runPasses_succ_false out rand d i rem hfl]
          intro e he ii rb dur heq
          rcases List.mem_append.mp he with he1 | he2
          · exfalso
            have := hpassA e he1
            rw [heq] at this
            simp [Event.attemptPass?] at this
          · rcases List.mem_cons.mp he2 with rfl | he3
            · -- the sleep of this very pass
              cases heq
              refine ⟨rfl, rfl, ?_, ?_⟩
              · have hz : attemptsInPass
                    (runPasses out rand (runPieces (out i) i d 0 d.pieces).1
                      (i + 1) rem).2.2 i = 0 := by
                  apply attemptsInPass_zero
                  intro a ha hpa
                  have hpo := Event.passOf_of_attemptPass hpa
                  have := hlb a ha
                  omega
                rw [attemptsInPass_append, attemptsInPass_cons_sleep,
                  attemptsInPass_all_eq _ _ hpassA, hcount, hz]
                omega
              · intro a ha hpa
                rcases List.mem_append.mp ha with ha1 | ha2
                · exact hp.1 a ha1
                · rcases List.mem_cons.mp ha2 with rfl | ha3
                  · simp [Event.attemptPass?] at hpa
                  · exfalso
                    have hpo := Event.passOf_of_attemptPass hpa
                    have := hlb a ha3
                    omega
            · -- a sleep of a later pass
              have ihh := ih _ (i + 1) e he3 ii rb dur heq
              have hii : i + 1 ≤ ii := by
                have := hlb e he3
                rw [heq] at this
                simpa [Event.passOf] using this
              refine ⟨ihh.1, ihh.2.1, ?_, ?_⟩
              · have hz : attemptsInPass (runPieces (out i) i d 0 d.pieces).2.2 ii = 0 := by
                  apply attemptsInPass_zero
                  intro a ha hpa
                  have := hpassA a ha
                  rw [this] at hpa
                  have : i = ii := by simpa using hpa
                  omega
                rw [attemptsInPass_append, attemptsInPass_cons_sleep, hz,
                  ihh.2.2.1, hp.2.2.2.1]
                omega
              · intro a ha hpa
                rcases List.mem_append.mp ha with ha1 | ha2
                · exfalso
                  have := hpassA a ha1
                  rw [this] at hpa
                  have : i = ii := by simpa using hpa
                  omega
                · rcases List.mem_cons.mp ha2 with rfl | ha3
                  · simp [Event.attemptPass?] at hpa
                  · exact ihh.2.2.2 a ha3 hpa

/-! ### The observable counter sequence -/

/-- Two successive observations of the counter: either it grew (bytes were
written) or it was reset to zero (a piece attempt failed). -/
def obsRel (a b : Nat) : Prop := a ≤ b ∨ b = 0

theorem chunkObs_chain (rec : Nat) (cs : List Nat) :
    List.Chain' obsRel (rec :: chunkObs rec cs) := by
  induction cs generalizing rec with
  | nil => simp [chunkObs]
  | cons c cs ih =>
      rw [chunkObs]
      exact List.chain'_cons.mpr ⟨Or.inl (Nat.le_add_right _ _), ih (rec + c)⟩

theorem chunkObs_le (rec : Nat) (cs : List Nat) :
    ∀ v ∈ chunkObs rec cs, v ≤ rec + cs.sum := by
  induction cs generalizing rec with
  | nil => simp [chunkObs]
  | cons c cs ih =>
      rw [chunkObs]
      intro v hv
      rcases List.mem_cons.mp hv with rfl | hv2
      · simp only [List.sum_cons]
        omega
      · have := ih (rec + c) v hv2
        simp only [List.sum_cons]
        omega

/-- Gluing two observation segments: if the first ends reset to zero (or is
empty), the combined sequence still satisfies `obsRel` stepwise. -/
theorem obs_chain_append (A B : List Nat) (hA : List.Chain' obsRel (0 :: A))
    (hA0 : A = [] ∨ A.getLast? = some 0) (hB : List.Chain' obsRel (0 :: B)) :
    List.Chain' obsRel (0 :: (A ++ B)) := by
  rcases hA0 with rfl | hA0
  · simpa using hB
  · show List.Chain' obsRel ((0 :: A) ++ B)
    apply hA.append hB.tail
    intro x hx y hy
    have hA' : (0 :: A).getLast? = some 0 := by
      cases A with
      | nil => simp at hA0
      | cons a as => rw [List.getLast?_cons_cons]; exact hA0
    rw [hA'] at hx
    simp at hx
    subst hx
    exact Or.inl (Nat.zero_le _)

theorem last_append_zero (A B : List Nat) (hA : A = [] ∨ A.getLast? = some 0)
    (hB : B = [] ∨ B.getLast? = some 0) :
    A ++ B = [] ∨ (A ++ B).getLast? = some 0 := by
  rcases hB with rfl | hB0
  · simpa using hA
  · right
    have hBne : B ≠ [] := by
      intro hcontra
      rw [hcontra] at hB0
      simp at hB0
    rw [List.getLast?_append_of_ne_nil A hBne]
    exact hB0

/-- Within one pass, the observable counter values form an `obsRel` chain
starting at 0, never exceed any bound on the per-attempt chunk totals, and
(if the pass failed) end reset to zero. -/
theorem runPieces_obs (out : Nat → FetchOutcome) (i : Nat) (d : Download) (j : Nat)
    (ps : List filePiece) (B : Nat) (hrec : d.received = 0)
    (hb : ∀ k, ((out k).chunks).sum ≤ B) :
    List.Chain' obsRel (0 :: obsFlat (runPieces out i d j ps).2.2) ∧
    (∀ v ∈ obsFlat (runPieces out i d j ps).2.2, v ≤ B) ∧
    ((runPieces out i d j ps).2.1 = false →
      obsFlat (runPieces out i d j ps).2.2 = [] ∨
      (obsFlat (runPieces out i d j ps).2.2).getLast? = some 0) := by
  induction ps generalizing d j with
  | nil => simp [runPieces, obsFlat]
  | cons piece rest ih =>
      cases hdp : (downloadPiece d piece (out j)).2 with
      | none =>
          simp only [runPieces, hdp]
          have hobs : obsFlat [Event.attempt i j d.received d.filePos
              (chunkObs d.received (out j).chunks) false
              (downloadPiece d piece (out j)).1.received
              (downloadPiece d piece (out j)).1.filePos] =
              chunkObs 0 ((out j).chunks) := by
            simp [obsFlat, Event.obsOf, hrec]
          rw [hobs]
          refine ⟨chunkObs_chain 0 _, ?_, ?_⟩
          · intro v hv
            have := chunkObs_le 0 _ v hv
            have := hb j
            omega
          · intro hcontra
            exact absurd hcontra (by simp)
      | some msg =>
          simp only [runPieces, hdp]
          have hobs : obsFlat (Event.attempt i j d.received d.filePos
              (chunkObs d.received (out j).chunks) true 0 0 ::
                (runPieces out i
                  { (downloadPiece d piece (out j)).1 with filePos := 0, received := 0 }
                  (j + 1) rest).2.2) =
              (chunkObs 0 ((out j).chunks) ++ [0]) ++
                obsFlat (runPieces out i
                  { (downloadPiece d piece (out j)).1 with filePos := 0, received := 0 }
                  (j + 1) rest).2.2 := by
            simp [obsFlat, Event.obsOf, hrec]
          rw [hobs]
          have ihh := ih { (downloadPiece d piece (out j)).1 with
            filePos := 0, received := 0 } (j + 1) rfl
          have hAchain : List.Chain' obsRel (0 :: (chunkObs 0 ((out j).chunks) ++ [0])) := by
            show List.Chain' obsRel ((0 :: chunkObs 0 ((out j).chunks)) ++ [0])
            apply (chunkObs_chain 0 _).append (List.chain'_singleton 0)
            intro x hx y hy
            simp at hy
            subst hy
            exact Or.inr rfl
          have hA0 : (chunkObs 0 ((out j).chunks) ++ [0]).getLast? = some 0 :=
            List.getLast?_concat _
          refine ⟨obs_chain_append _ _ hAchain (Or.inr hA0) ihh.1, ?_, ?_⟩
          · intro v hv
            rcases List.mem_append.mp hv with hv1 | hv2
            · rcases List.mem_append.mp hv1 with hv3 | hv4
              · have := chunkObs_le 0 _ v hv3
                have := hb j
                omega
              · simp at hv4
                omega
            · exact ihh.2.1 v hv2
          · intro hflag
            exact last_append_zero _ _ (Or.inr hA0) (ihh.2.2 hflag)

/-- Over the whole retry loop, the observable counter values form an
`obsRel` chain starting at 0 and never exceed any bound on the per-attempt
chunk totals. -/
theorem runPasses_obs (out : Nat → Nat → FetchOutcome) (rand : Nat → Nat)
    (d : Download) (i rem : Nat) (B : Nat) (hrec : d.received = 0)
    (hb : ∀ ii k, ((out ii k).chunks).sum ≤ B) :
    List.Chain' obsRel (0 :: obsFlat (runPasses out rand d i rem).2.2) ∧
    (∀ v ∈ obsFlat (runPasses out rand d i rem).2.2, v ≤ B) ∧
    ((runPasses out rand d i rem).2.1 = false →
      obsFlat (runPasses out rand d i rem).2.2 = [] ∨
      (obsFlat (runPasses out rand d i rem).2.2).getLast? = some 0) := by
  induction rem generalizing d i with
  | zero => simp [runPasses, obsFlat]
  | succ rem ih =>
      cases hfl : (runPieces (out i) i d 0 d.pieces).2.1 with
      | true =>
          rw [runPasses_succ_true out rand d i rem hfl]
          have := runPieces_obs (out i) i d 0 d.pieces B hrec (fun k => hb i k)
          exact ⟨this.1, this.2.1, fun hcontra => absurd hcontra (by simp)⟩
      | false =>
          have hp := runPieces_false (out i) i d 0 d.pieces hfl
          have hpo := runPieces_obs (out i) i d 0 d.pieces B hrec (fun k => hb i k)
          rw [runPasses_succ_false out rand d i rem hfl]
          have hrec2 : (runPieces (out i) i d 0 d.pieces).1.received = 0 := by
            by_cases hps : d.pieces = []
            · rw [hp.2.2.2.2.2.1 hps]; exact hrec
            · exact (hp.2.2.2.2.2.2 hps).1
          have ihh := ih _ (i + 1) hrec2
          have hobs : obsFlat ((runPieces (out i) i d 0 d.pieces).2.2 ++
              Event.sleep i (rand i) (1000000000 * (i * i) * rand i) ::
                (runPasses out rand (runPieces (out i) i d 0 d.pieces).1
                  (i + 1) rem).2.2) =
              obsFlat (runPieces (out i) i d 0 d.pieces).2.2 ++
                obsFlat (runPasses out rand (runPieces (out i) i d 0 d.pieces).1
                  (i + 1) rem).2.2 := by
            simp [obsFlat, Event.obsOf]
          rw [hobs]
          refine ⟨obs_chain_append _ _ hpo.1 (hpo.2.2 hfl) ihh.1, ?_, ?_⟩
          · intro v hv
            rcases List.mem_append.mp hv with hv1 | hv2
            · exact hpo.2.1 v hv1
            · exact ihh.2.1 v hv2
          · intro hflag
            exact last_append_zero _ _ (hpo.2.2 hfl) (ihh.2.2 hflag)

/-! ### Construction and top-level unfoldings -/

/-- What a successful `newDownload` guarantees about the session it built. -/
theorem newDownload_ok_fields (fs : List String) (f : file) (destination : String)
    (createOk : Bool) (now : Nat) (fs1 : List String) (d : Download)
    (h : newDownload fs f destination createOk now = .ok fs1 d) :
    d.received = 0 ∧ d.filePos = 0 ∧ d.complete = false ∧ d.fileClosed = false ∧
    d.pieces = f.pieces.filter (fun p => p.active) ∧
    d.filesize = (f.pieces.headD default).contract.fileSize ∧
    fs1 = destination :: fs ∧ createOk = true := by
  unfold newDownload at h
  by_cases hc : createOk
  · simp only [hc, not_true_eq_false, if_false] at h
    by_cases ha : (f.pieces.filter (fun p => p.active)).length = 0
    · simp [ha] at h
    · simp only [ha, if_false] at h
      cases hp : f.pieces.head? with
      | none =>
          rw [hp] at h
          exact absurd h (by simp)
      | some p0 =>
          rw [hp] at h
          have hinj := h
          simp only [NewDownloadResult.ok.injEq] at hinj
          obtain ⟨hfs1, hd⟩ := hinj
          subst hd
          refine ⟨rfl, rfl, rfl, rfl, rfl, ?_, hfs1.symm, hc⟩
          simp [List.headD_eq_head?_getD, hp]
  · simp [hc] at h

/-- The final session of the whole loop keeps the initial declared size and
piece list. -/
theorem runPasses_keeps (out : Nat → Nat → FetchOutcome) (rand : Nat → Nat)
    (d : Download) (i rem : Nat) :
    (runPasses out rand d i rem).1.filesize = d.filesize ∧
    (runPasses out rand d i rem).1.pieces = d.pieces := by
  induction rem generalizing d i with
  | zero => simp [runPasses]
  | succ rem ih =>
      cases hfl : (runPieces (out i) i d 0 d.pieces).2.1 with
      | true =>
          rw [runPasses_succ_true out rand d i rem hfl]
          have hp := runPieces_true (out i) i d 0 d.pieces hfl
          exact ⟨hp.2.2.2.2, hp.2.2.2.1⟩
      | false =>
          rw [runPasses_succ_false out rand d i rem hfl]
          have hp := runPieces_false (out i) i d 0 d.pieces hfl
          have ihh := ih (runPieces (out i) i d 0 d.pieces).1 (i + 1)
          exact ⟨by rw [ihh.1]; exact hp.2.2.2.2.1, by rw [ihh.2]; exact hp.2.2.2.1⟩

/-- `Renter.Download` when the nickname is unknown. -/
theorem download_noFile (r : Renter) (fs : List String)
    (nickname destination : String) (createOk : Bool) (now : Nat)
    (out : Nat → Nat → FetchOutcome) (rand : Nat → Nat)
    (hlk : r.files.lookup nickname = none) :
    Renter.Download r fs nickname destination createOk now out rand =
      ⟨r, fs, some "no file of that nickname", [], none⟩ := by
  simp only [Renter.Download, hlk]

/-- `Renter.Download` when `newDownload` fails. -/
theorem download_ndErr (r : Renter) (fs : List String)
    (nickname destination : String) (createOk : Bool) (now : Nat)
    (out : Nat → Nat → FetchOutcome) (rand : Nat → Nat) (f : file)
    (fs1 : List String) (msg : String)
    (hlk : r.files.lookup nickname = some f)
    (hnd : newDownload fs f destination createOk now = .err fs1 msg) :
    Renter.Download r fs nickname destination createOk now out rand =
      ⟨r, fs1, some msg, [], none⟩ := by
  simp only [Renter.Download, hlk, hnd]

/-- `Renter.Download` when `newDownload` succeeds. -/
theorem download_ok_unfold (r : Renter) (fs : List String)
    (nickname destination : String) (createOk : Bool) (now : Nat)
    (out : Nat → Nat → FetchOutcome) (rand : Nat → Nat) (f : file)
    (fs1 : List String) (d : Download)
    (hlk : r.files.lookup nickname = some f)
    (hnd : newDownload fs f destination createOk now = .ok fs1 d) :
    Renter.Download r fs nickname destination createOk now out rand =
      if (runPasses out rand d 0 downloadAttempts).2.1 then
        ⟨{ r with downloadQueue := r.downloadQueue ++ [d] }, fs1, none,
          (runPasses out rand d 0 downloadAttempts).2.2,
          some (runPasses out rand d 0 downloadAttempts).1⟩
      else
        ⟨{ r with downloadQueue := r.downloadQueue ++ [d] },
          fs1.filter (fun p => p ≠ destination),
          some "could not download any file pieces",
          (runPasses out rand d 0 downloadAttempts).2.2,
          some { (runPasses out rand d 0 downloadAttempts).1 with fileClosed := true }⟩ := by
  simp only [Renter.Download, hlk, hnd]

/-- `Renter.DownloadQueue` is exactly the reverse of the queue. -/
theorem DownloadQueue_eq_reverse (r : Renter) :
    Renter.DownloadQueue r = r.downloadQueue.reverse := by
  unfold Renter.DownloadQueue
  apply List.ext_getElem
  · simp
  · intro n h1 h2
    simp only [List.getElem_map, List.getElem_range, List.getElem_reverse]
    rw [List.getD_eq_getElem?_getD]
    have hlen : n < r.downloadQueue.length := by simpa using h1
    have hidx : r.downloadQueue.length - n - 1 < r.downloadQueue.length := by omega
    rw [List.getElem?_eq_getElem hidx]
    simp only [Option.getD_some]
    congr 1
    omega

/-- `Renter.Download` on the (unreachable) out-of-bounds constructor. -/
theorem download_ndOOB (r : Renter) (fs : List String)
    (nickname destination : String) (createOk : Bool) (now : Nat)
    (out : Nat → Nat → FetchOutcome) (rand : Nat → Nat) (f : file)
    (hlk : r.files.lookup nickname = some f)
    (hnd : newDownload fs f destination createOk now = .outOfBounds) :
    Renter.Download r fs nickname destination createOk now out rand =
      ⟨r, fs, some "index out of range", [], none⟩ := by
  simp only [Renter.Download, hlk, hnd]

/-- With `os.Create` succeeding and at least one active piece,
`newDownload` returns exactly this session. -/
theorem newDownload_ok_of_active (fs : List String) (f : file) (destination : String)
    (now : Nat) (hactive : (f.pieces.filter (fun p => p.active)).length ≠ 0) :
    newDownload fs f destination true now =
      .ok (destination :: fs)
        { received := 0, startTime := now, complete := false,
          filesize := (f.pieces.headD default).contract.fileSize,
          destination := destination, nickname := f.name,
          pieces := f.pieces.filter (fun p => p.active),
          filePos := 0, fileClosed := false } := by
  unfold newDownload
  simp only [not_true_eq_false, if_false, hactive]
  cases hp : f.pieces.head? with
  | none =>
      exfalso
      rw [List.head?_eq_none_iff] at hp
      rw [hp] at hactive
      simp at hactive
  | some p0 =>
      simp [List.headD_eq_head?_getD, hp]

theorem Event.not_success_of_failed {e : Event} (h : e.isFailedAttempt = true) :
    e.isSuccessAttempt = false := by
  cases e with
  | attempt a b c dd ee ff gg hh =>
      simp [Event.isFailedAttempt] at h
      simp [Event.isSuccessAttempt, h]
  | sleep a b c => rfl

theorem Event.not_success_of_sleep {e : Event} (h : e.isSleepEv = true) :
    e.isSuccessAttempt = false := by
  cases e with
  | attempt a b c dd ee ff gg hh => simp [Event.isSleepEv] at h
  | sleep a b c => rfl

/-! ### Claim C3: exhaustion closes, deletes and errors -/

/-- Claim C3: if every piece attempt fails in all five passes,
`Renter.Download` returns the terminal "could not download any file
pieces" error, the destination file is no longer on disk, the destination
handle is closed, and the session never became complete. -/
theorem exhaustion_cleanup (r : Renter) (fs : List String)
    (nickname destination : String) (now : Nat)
    (out : Nat → Nat → FetchOutcome) (rand : Nat → Nat) (f : file)
    (hlk : r.files.lookup nickname = some f)
    (hactive : (f.pieces.filter (fun p => p.active)).length ≠ 0)
    (hfail : ∀ i k, (hk : k < (f.pieces.filter (fun p => p.active)).length) →
      outcomeFails (out i k) ((f.pieces.filter (fun p => p.active)).get ⟨k, hk⟩) = true) :
    (Renter.Download r fs nickname destination true now out rand).err =
      some "could not download any file pieces" ∧
    destination ∉ (Renter.Download r fs nickname destination true now out rand).fs ∧
    ((Renter.Download r fs nickname destination true now out rand).finalD.map
      Download.fileClosed) = some true ∧
    ((Renter.Download r fs nickname destination true now out rand).finalD.map
      Download.complete) = some false := by
  have hnd := newDownload_ok_of_active fs f destination now hactive
  rw [download_ok_unfold r fs nickname destination true now out rand f _ _ hlk hnd]
  have hflag : (runPasses out rand
      { received := 0, startTime := now, complete := false,
        filesize := (f.pieces.headD default).contract.fileSize,
        destination := destination, nickname := f.name,
        pieces := f.pieces.filter (fun p => p.active),
        filePos := 0, fileClosed := false } 0 downloadAttempts).2.1 = false := by
    apply runPasses_all_fail
    exact hfail
  have hpf := runPasses_false out rand
    { received := 0, startTime := now, complete := false,
      filesize := (f.pieces.headD default).contract.fileSize,
      destination := destination, nickname := f.name,
      pieces := f.pieces.filter (fun p => p.active),
      filePos := 0, fileClosed := false } 0 downloadAttempts hflag
  simp only [hflag, Bool.false_eq_true, if_false]
  refine ⟨trivial, ?_, ?_, ?_⟩
  · simp
  · rfl
  · simpa using hpf.2.1

/-- Witness for C3: the concrete all-failing run `runBad`. -/
theorem exhaustion_cleanup_witness :
    runBad.err = some "could not download any file pieces" ∧
    "dest" ∉ runBad.fs ∧
    (runBad.finalD.map Download.fileClosed) = some true ∧
    (runBad.finalD.map Download.complete) = some false := by
  have h := exhaustion_cleanup renterA [] "report" "dest" 0 badHostOut (fun _ => 7) fileA
    rfl (by decide) (fun i k hk => by
      have hk1 : k < 1 := hk
      have hk0 : k = 0 := by omega
      subst hk0
      rfl)
  exact h

/-! ### Claim C4: the first success stops everything -/

/-- Claim C4: if any piece attempt of the run succeeds, `Renter.Download`
returns nil, the session is complete with the handle closed, the last event
of the run is the successful attempt, and nothing before it succeeded — no
later piece and no later pass is attempted. -/
theorem first_success_stops (r : Renter) (fs : List String)
    (nickname destination : String) (createOk : Bool) (now : Nat)
    (out : Nat → Nat → FetchOutcome) (rand : Nat → Nat)
    (hs : ∃ e ∈ (Renter.Download r fs nickname destination createOk now out rand).events,
      e.isSuccessAttempt = true) :
    (Renter.Download r fs nickname destination createOk now out rand).err = none ∧
    ((Renter.Download r fs nickname destination createOk now out rand).finalD.map
      Download.complete) = some true ∧
    ((Renter.Download r fs nickname destination createOk now out rand).finalD.map
      Download.fileClosed) = some true ∧
    (((Renter.Download r fs nickname destination createOk now out rand).events.getLast?).map
      Event.isSuccessAttempt) = some true ∧
    (∀ x ∈ (Renter.Download r fs nickname destination createOk now out rand).events.dropLast,
      x.isSuccessAttempt = false) := by
  cases hlk : r.files.lookup nickname with
  | none =>
      rw [download_noFile r fs nickname destination createOk now out rand hlk] at hs
      obtain ⟨e, he, _⟩ := hs
      simp at he
  | some f =>
      cases hnd : newDownload fs f destination createOk now with
      | err fs1 msg =>
          rw [download_ndErr r fs nickname destination createOk now out rand f fs1 msg
            hlk hnd] at hs
          obtain ⟨e, he, _⟩ := hs
          simp at he
      | outOfBounds =>
          rw [download_ndOOB r fs nickname destination createOk now out rand f hlk hnd] at hs
          obtain ⟨e, he, _⟩ := hs
          simp at he
      | ok fs1 d =>
          rw [download_ok_unfold r fs nickname destination createOk now out rand f fs1 d
            hlk hnd] at hs ⊢
          cases hflag : (runPasses out rand d 0 downloadAttempts).2.1 with
          | false =>
              exfalso
              simp only [hflag, Bool.false_eq_true, if_false] at hs
              obtain ⟨e, he, hse⟩ := hs
              have hall := (runPasses_false out rand d 0 downloadAttempts hflag).1 e he
              rcases hall with h1 | h2
              · rw [Event.not_success_of_failed h1] at hse
                exact Bool.noConfusion hse
              · rw [Event.not_success_of_sleep h2] at hse
                exact Bool.noConfusion hse
          | true =>
              simp only [hflag, if_true]
              have hpt := runPasses_true out rand d 0 downloadAttempts hflag
              obtain ⟨pre, e, hevs, hse, hpre⟩ := hpt.1
              refine ⟨trivial, ?_, ?_, ?_, ?_⟩
              · simpa using hpt.2.1
              · simpa using hpt.2.2
              · rw [hevs, List.getLast?_concat]
                simp [hse]
              · intro x hx
                rw [hevs, List.dropLast_concat] at hx
                exact hpre x hx

/-- Witness for C4: the concrete run `runGood`, whose first attempt
succeeds. -/
theorem first_success_stops_witness :
    (∃ e ∈ runGood.events, e.isSuccessAttempt = true) ∧
    runGood.err = none ∧
    (runGood.finalD.map Download.complete) = some true ∧
    (runGood.finalD.map Download.fileClosed) = some true ∧
    ((runGood.events.getLast?).map Event.isSuccessAttempt) = some true := by
  have hs : ∃ e ∈ runGood.events, e.isSuccessAttempt = true := by
    refine ⟨Event.attempt 0 0 0 0 [10] false 10 10, ?_, rfl⟩
    decide
  have h := first_success_stops renterA [] "report" "dest" true 0 goodHostOut
    (fun _ => 7) hs
  exact ⟨hs, h.1, h.2.1, h.2.2.1, h.2.2.2.1⟩

/-! ### Claim C5: reset of counter and write position -/

/-- Claim C5: every piece attempt of a run starts with the cumulative
counter and the destination write position at their pre-attempt values —
always zero, because the session starts at zero and every failed attempt
rewinds the file to offset 0 and swaps the counter back to 0 before the
next piece is tried. -/
theorem reset_on_failure (r : Renter) (fs : List String)
    (nickname destination : String) (createOk : Bool) (now : Nat)
    (out : Nat → Nat → FetchOutcome) (rand : Nat → Nat) :
    ∀ e ∈ (Renter.Download r fs nickname destination createOk now out rand).events,
      e.resetOk = true := by
  cases hlk : r.files.lookup nickname with
  | none =>
      rw [download_noFile r fs nickname destination createOk now out rand hlk]
      simp
  | some f =>
      cases hnd : newDownload fs f destination createOk now with
      | err fs1 msg =>
          rw [download_ndErr r fs nickname destination createOk now out rand f fs1 msg hlk hnd]
          simp
      | outOfBounds =>
          rw [download_ndOOB r fs nickname destination createOk now out rand f hlk hnd]
          simp
      | ok fs1 d =>
          have hfields := newDownload_ok_fields fs f destination createOk now fs1 d hnd
          rw [download_ok_unfold r fs nickname destination createOk now out rand f fs1 d hlk hnd]
          cases hflag : (runPasses out rand d 0 downloadAttempts).2.1 with
          | true =>
              simp only [hflag, if_true]
              exact runPasses_resetOk out rand d 0 downloadAttempts hfields.1 hfields.2.1
          | false =>
              simp only [hflag, Bool.false_eq_true, if_false]
              exact runPasses_resetOk out rand d 0 downloadAttempts hfields.1 hfields.2.1

/-- Witness for C5: in the concrete failing run `runBad`, every attempt
event records counter 0 and position 0 before, and 0 after failure. -/
theorem reset_on_failure_witness :
    Event.attempt 0 0 0 0 [5] true 0 0 ∈ runBad.events ∧
    (Event.attempt 0 0 0 0 [5] true 0 0).resetOk = true := by
  refine ⟨by decide, ?_⟩
  exact reset_on_failure renterA [] "report" "dest" true 0 badHostOut (fun _ => 7)
    (Event.attempt 0 0 0 0 [5] true 0 0) (by decide)

/-! ### Claim C2 (amended): the observable counter sequence -/

/-- Claim C2, amended: over any run, successive observations of the
cumulative counter either grow or are reset to zero by a failed piece
attempt (so the sequence is not non-decreasing in general, but every
decrease is a reset to zero), and — provided every attempt delivers at
most the declared file size, as the bounded read guarantees when all
pieces declare the session's size — no observation ever exceeds the
declared file size; the session's declared size is the first piece's
contract size. -/
theorem received_observation_chain (r : Renter) (fs : List String)
    (nickname destination : String) (createOk : Bool) (now : Nat)
    (out : Nat → Nat → FetchOutcome) (rand : Nat → Nat) (f : file)
    (hlk : r.files.lookup nickname = some f)
    (hb : ∀ i j, ((out i j).chunks).sum ≤ (f.pieces.headD default).contract.fileSize) :
    List.Chain' obsRel
      (recTrace (Renter.Download r fs nickname destination createOk now out rand).events) ∧
    (∀ v ∈ recTrace (Renter.Download r fs nickname destination createOk now out rand).events,
      v ≤ (f.pieces.headD default).contract.fileSize) ∧
    (∀ dF, (Renter.Download r fs nickname destination createOk now out rand).finalD = some dF →
      dF.filesize = (f.pieces.headD default).contract.fileSize) := by
  cases hnd : newDownload fs f destination createOk now with
  | err fs1 msg =>
      rw [download_ndErr r fs nickname destination createOk now out rand f fs1 msg hlk hnd]
      refine ⟨by simp [recTrace, obsFlat], ?_, by simp⟩
      intro v hv
      simp [recTrace, obsFlat] at hv
      simp [hv]
  | outOfBounds =>
      rw [download_ndOOB r fs nickname destination createOk now out rand f hlk hnd]
      refine ⟨by simp [recTrace, obsFlat], ?_, by simp⟩
      intro v hv
      simp [recTrace, obsFlat] at hv
      simp [hv]
  | ok fs1 d =>
      have hfields := newDownload_ok_fields fs f destination createOk now fs1 d hnd
      have hobs := runPasses_obs out rand d 0 downloadAttempts
        ((f.pieces.headD default).contract.fileSize) hfields.1 hb
      have hkeep := runPasses_keeps out rand d 0 downloadAttempts
      rw [download_ok_unfold r fs nickname destination createOk now out rand f fs1 d hlk hnd]
      cases hflag : (runPasses out rand d 0 downloadAttempts).2.1 with
      | true =>
          simp only [hflag, if_true]
          refine ⟨hobs.1, ?_, ?_⟩
          · intro v hv
            rcases List.mem_cons.mp hv with rfl | hv2
            · exact Nat.zero_le _
            · exact hobs.2.1 v hv2
          · intro dF hdF
            have : dF = (runPasses out rand d 0 downloadAttempts).1 := by
              simpa using hdF.symm
            rw [this, hkeep.1, hfields.2.2.2.2.2.1]
      | false =>
          simp only [hflag, Bool.false_eq_true, if_false]
          refine ⟨hobs.1, ?_, ?_⟩
          · intro v hv
            rcases List.mem_cons.mp hv with rfl | hv2
            · exact Nat.zero_le _
            · exact hobs.2.1 v hv2
          · intro dF hdF
            have hdF2 : dF = { (runPasses out rand d 0 downloadAttempts).1 with
                fileClosed := true } := by
              simpa using hdF.symm
            rw [hdF2]
            show (runPasses out rand d 0 downloadAttempts).1.filesize = _
            rw [hkeep.1, hfields.2.2.2.2.2.1]

/-- Witness for C2 (amended): the concrete run `runBad` with the host
delivering 5 of the declared 10 bytes each attempt. -/
theorem received_observation_chain_witness :
    (∀ i j, ((badHostOut i j).chunks).sum ≤
      (fileA.pieces.headD default).contract.fileSize) ∧
    List.Chain' obsRel (recTrace runBad.events) := by
  have hb : ∀ i j, ((badHostOut i j).chunks).sum ≤
      (fileA.pieces.headD default).contract.fileSize := by
    intro i j
    show ([5] : List Nat).sum ≤ 10
    decide
  exact ⟨hb, (received_observation_chain renterA [] "report" "dest" true 0 badHostOut
    (fun _ => 7) fileA rfl hb).1⟩

/-! ### Claim C7 (amended): the backoff schedule -/

/-- Claim C7, amended: a backoff sleep occurs exactly at the end of every
pass that completes with zero successes — including the final pass, after
which no further pass follows — and its duration is (pass index)² seconds
times the freshly drawn random byte, so pass index 0 incurs zero wait.
Every sleep's pass ran one failed attempt per active piece and had no
successful attempt. -/
theorem backoff_schedule (r : Renter) (fs : List String)
    (nickname destination : String) (createOk : Bool) (now : Nat)
    (out : Nat → Nat → FetchOutcome) (rand : Nat → Nat) (f : file)
    (hlk : r.files.lookup nickname = some f) :
    ∀ e ∈ (Renter.Download r fs nickname destination createOk now out rand).events,
      ∀ i rb dur, e = Event.sleep i rb dur →
      rb = rand i ∧ dur = 1000000000 * (i * i) * rb ∧ (i = 0 → dur = 0) ∧
      attemptsInPass (Renter.Download r fs nickname destination createOk now out rand).events i =
        (f.pieces.filter (fun p => p.active)).length ∧
      (∀ a ∈ (Renter.Download r fs nickname destination createOk now out rand).events,
        a.attemptPass? = some i → a.isFailedAttempt = true) := by
  cases hnd : newDownload fs f destination createOk now with
  | err fs1 msg =>
      rw [download_ndErr r fs nickname destination createOk now out rand f fs1 msg hlk hnd]
      intro e he
      simp at he
  | outOfBounds =>
      rw [download_ndOOB r fs nickname destination createOk now out rand f hlk hnd]
      intro e he
      simp at he
  | ok fs1 d =>
      have hfields := newDownload_ok_fields fs f destination createOk now fs1 d hnd
      rw [download_ok_unfold r fs nickname destination createOk now out rand f fs1 d hlk hnd]
      cases hflag : (runPasses out rand d 0 downloadAttempts).2.1 with
      | true =>
          simp only [hflag, if_true]
          intro e he i rb dur heq
          have hss := runPasses_sleep_spec out rand d 0 downloadAttempts e he i rb dur heq
          refine ⟨hss.1, hss.2.1, ?_, ?_, hss.2.2.2⟩
          · intro hi
            subst hi
            rw [hss.2.1]
            simp
          · rw [hss.2.2.1, hfields.2.2.2.2.1]
      | false =>
          simp only [hflag, Bool.false_eq_true, if_false]
          intro e he i rb dur heq
          have hss := runPasses_sleep_spec out rand d 0 downloadAttempts e he i rb dur heq
          refine ⟨hss.1, hss.2.1, ?_, ?_, hss.2.2.2⟩
          · intro hi
            subst hi
            rw [hss.2.1]
            simp
          · rw [hss.2.2.1, hfields.2.2.2.2.1]

/-- Witness for C7 (amended): the final sleep of `runBad`, with random
byte 7 at pass index 4. -/
theorem backoff_schedule_witness :
    (7 : Nat) = (fun _ : Nat => 7) 4 ∧
    (112000000000 : Nat) = 1000000000 * (4 * 4) * 7 ∧
    attemptsInPass runBad.events 4 = (fileA.pieces.filter (fun p => p.active)).length := by
  have h := backoff_schedule renterA [] "report" "dest" true 0 badHostOut (fun _ => 7)
    fileA rfl (Event.sleep 4 7 112000000000) (by decide) 4 7 112000000000 rfl
  exact ⟨h.1, h.2.1, h.2.2.2.1⟩

/-! ### Claim C8 (amended): construction failure paths -/

/-- Claim C8, amended: every construction failure returns a non-nil error
immediately, with no retrieval attempts, no retry and no enqueued session;
the unknown-nickname and create-failure paths leave the filesystem
unchanged, but on the zero-active-pieces path the destination file created
by `os.Create` remains on disk when the error is returned. -/
theorem construction_failure_paths (r : Renter) (fs : List String)
    (nickname destination : String) (createOk : Bool) (now : Nat)
    (out : Nat → Nat → FetchOutcome) (rand : Nat → Nat) :
    (r.files.lookup nickname = none →
      Renter.Download r fs nickname destination createOk now out rand =
        ⟨r, fs, some "no file of that nickname", [], none⟩) ∧
    (∀ f, r.files.lookup nickname = some f → createOk = false →
      Renter.Download r fs nickname destination createOk now out rand =
        ⟨r, fs, some "create failed", [], none⟩) ∧
    (∀ f, r.files.lookup nickname = some f → createOk = true →
      (f.pieces.filter (fun p => p.active)).length = 0 →
      Renter.Download r fs nickname destination createOk now out rand =
        ⟨r, destination :: fs, some "no active pieces", [], none⟩) := by
  refine ⟨?_, ?_, ?_⟩
  · intro hlk
    exact download_noFile r fs nickname destination createOk now out rand hlk
  · intro f hlk hc
    subst hc
    refine download_ndErr r fs nickname destination false now out rand f fs
      "create failed" hlk ?_
    simp [newDownload]
  · intro f hlk hc ha
    subst hc
    refine download_ndErr r fs nickname destination true now out rand f
      (destination :: fs) "no active pieces" hlk ?_
    unfold newDownload
    simp [ha]

/-- Witness for C8 (amended): the all-inactive file "ghost" — the error is
returned and the created destination file is still present. -/
theorem construction_failure_paths_witness :
    renterInactive.files.lookup "ghost" = some fileInactive ∧
    Renter.Download renterInactive [] "ghost" "dest" true 0
      (fun _ _ => FetchOutcome.dialErr) (fun _ => 0) =
      ⟨renterInactive, ["dest"], some "no active pieces", [], none⟩ := by
  refine ⟨rfl, ?_⟩
  exact (construction_failure_paths renterInactive [] "ghost" "dest" true 0
    (fun _ _ => FetchOutcome.dialErr) (fun _ => 0)).2.2 fileInactive rfl rfl (by decide)

/-! ### Claim C9: the download queue -/

/-- Claim C9: `Renter.Download` only ever appends (at most one) session to
the queue — a session exactly when construction succeeded, and nothing is
ever removed — and `Renter.DownloadQueue` lists the queue in most-recent-
first order: it is the reverse of the enqueue order, containing every
enqueued session exactly once. -/
theorem download_queue_spec (r : Renter) (fs : List String)
    (nickname destination : String) (createOk : Bool) (now : Nat)
    (out : Nat → Nat → FetchOutcome) (rand : Nat → Nat) :
    ((Renter.Download r fs nickname destination createOk now out rand).finalD = none →
      (Renter.Download r fs nickname destination createOk now out rand).renter.downloadQueue =
        r.downloadQueue) ∧
    ((Renter.Download r fs nickname destination createOk now out rand).finalD.isSome = true →
      ∃ d, (Renter.Download r fs nickname destination createOk now out rand).renter.downloadQueue =
        r.downloadQueue ++ [d]) ∧
    Renter.DownloadQueue (Renter.Download r fs nickname destination createOk now out rand).renter =
      ((Renter.Download r fs nickname destination createOk now out rand).renter.downloadQueue).reverse ∧
    (∀ x, (Renter.DownloadQueue
        (Renter.Download r fs nickname destination createOk now out rand).renter).count x =
      ((Renter.Download r fs nickname destination createOk now out rand).renter.downloadQueue).count x) := by
  have hcount : ∀ r2 : Renter, ∀ x,
      (Renter.DownloadQueue r2).count x = r2.downloadQueue.count x := by
    intro r2 x
    rw [DownloadQueue_eq_reverse]
    exact List.count_reverse x r2.downloadQueue
  cases hlk : r.files.lookup nickname with
  | none =>
      rw [download_noFile r fs nickname destination createOk now out rand hlk]
      exact ⟨fun _ => rfl, fun hcontra => by simp at hcontra,
        DownloadQueue_eq_reverse _, hcount _⟩
  | some f =>
      cases hnd : newDownload fs f destination createOk now with
      | err fs1 msg =>
          rw [download_ndErr r fs nickname destination createOk now out rand f fs1 msg hlk hnd]
          exact ⟨fun _ => rfl, fun hcontra => by simp at hcontra,
            DownloadQueue_eq_reverse _, hcount _⟩
      | outOfBounds =>
          rw [download_ndOOB r fs nickname destination createOk now out rand f hlk hnd]
          exact ⟨fun _ => rfl, fun hcontra => by simp at hcontra,
            DownloadQueue_eq_reverse _, hcount _⟩
      | ok fs1 d =>
          rw [download_ok_unfold r fs nickname destination createOk now out rand f fs1 d hlk hnd]
          cases hflag : (runPasses out rand d 0 downloadAttempts).2.1 with
          | true =>
              simp only [hflag, if_true]
              exact ⟨fun hcontra => by simp at hcontra, fun _ => ⟨d, rfl⟩,
                DownloadQueue_eq_reverse _, hcount _⟩
          | false =>
              simp only [hflag, Bool.false_eq_true, if_false]
              exact ⟨fun hcontra => by simp at hcontra, fun _ => ⟨d, rfl⟩,
                DownloadQueue_eq_reverse _, hcount _⟩

/-- Witness for C9: the listing of the queue after the successful concrete
run `runGood`, and the unchanged queue of a lookup-miss run. -/
theorem download_queue_spec_witness :
    Renter.DownloadQueue runGood.renter = runGood.renter.downloadQueue.reverse ∧
    (Renter.Download renterA [] "missing" "dest" true 0 goodHostOut
      (fun _ => 7)).renter.downloadQueue = renterA.downloadQueue := by
  refine ⟨(download_queue_spec renterA [] "report" "dest" true 0 goodHostOut
    (fun _ => 7)).2.2.1, ?_⟩
  exact (download_queue_spec renterA [] "missing" "dest" true 0 goodHostOut
    (fun _ => 7)).1 rfl

/-- Witness for C6: a concrete partial write of 2 bytes of a 3-byte buffer
with an error, still counted exactly. -/
theorem Download_Write_accounting_witness :
    ((Download.Write default [1, 2, 3] 2 (some "disk full")).2.1 = 2) ∧
    ((Download.Write default [1, 2, 3] 2 (some "disk full")).2.2 = some "disk full") ∧
    ((Download.Write default [1, 2, 3] 2 (some "disk full")).1.received =
      (default : Download).received + 2) :=
  ⟨(Download_Write_accounting default [1, 2, 3] 2 (some "disk full")).1,
    (Download_Write_accounting default [1, 2, 3] 2 (some "disk full")).2.1,
    (Download_Write_accounting default [1, 2, 3] 2 (some "disk full")).2.2.1⟩

/-- Witness for C10: the empty-piece-list file is rejected without any
out-of-bounds access. -/
theorem newDownload_no_out_of_bounds_witness :
    newDownload [] { name := "empty", pieces := [] } "dest" true 0 ≠
      NewDownloadResult.outOfBounds ∧
    newDownload [] { name := "empty", pieces := [] } "dest" true 0 =
      NewDownloadResult.err ["dest"] "no active pieces" :=
  ⟨newDownload_no_out_of_bounds [] { name := "empty", pieces := [] } "dest" true 0,
    by decide⟩
